import Mathlib

/-!
Verification development for the PDF-layout reassembly core of
`pdf1_html.py` (class `PDFToHTMLConverter`).

Shallow embedding conventions:
* page coordinates (Python floats) are modelled as rationals `ℚ`;
* Python `None`-able strings are `Option String`;
* a mutable Python list that a function may mutate is threaded as explicit
  state (the function returns the list's final value alongside its result);
* Python's `sorted` (a stable sort) is modelled by a stable insertion sort,
  which computes the same list (stable sorting by a total preorder is a
  uniquely determined function);
* the Euclidean distance `d = sqrt(dx^2+dy^2)` of the source is modelled by
  the squared distance `dx^2+dy^2`; all the source ever does with `d` is
  compare it to another such distance, and `sqrt` is strictly monotone on
  non-negative reals, so every comparison has the same outcome.
-/

namespace PdfHtml

/-- Axis-aligned bounding rectangle `(x0, y0, x1, y1)` in page coordinates. -/
structure BBox where
  x0 : ℚ
  y0 : ℚ
  x1 : ℚ
  y1 : ℚ
deriving DecidableEq

/-- A decoded raster image as the dict built in `extract_images_from_page`:
base64 payload (`data`), format tag, and resolved bbox.  The dict's
`width`/`height` entries are derived fields never read downstream and are
omitted. -/
structure Img where
  data : String
  format : String
  bbox : BBox
deriving DecidableEq

/-- A detected table: the cell grid of `page.extract_tables()` (row 0 is the
header) paired with the bbox of the parallel `page.find_tables()` entry.
A cell is `Option String` (`None` or text); rows may be ragged. -/
structure Table where
  rows : List (List (Option String))
  bbox : BBox
deriving DecidableEq

/-- One entry of `page.get_drawings()`: the optional `fill_image` xref and the
`rect`.  (`hasattr(draw, "get")` is always true for these dicts.) -/
structure Drawing where
  fill_image : Option Nat
  rect : BBox
deriving DecidableEq

/-- A successfully decoded image of `page.get_images(full=True)` before its
bbox is resolved: its xref plus the base64 payload and format produced by
the decode/encode steps. -/
structure RawImage where
  xref : Nat
  data : String
  format : String
deriving DecidableEq

/-- The page-level inputs of `extract_images_from_page`: page rectangle
dimensions and the drawing commands. -/
structure PageMeta where
  width : ℚ
  height : ℚ
  drawings : List Drawing
deriving DecidableEq

/-- One element of `pages_content` as built by `extract_pdf_content`. -/
structure PageContent where
  text : Option String
  tables : List String
  images : List Img
  page_number : Nat

/-- Horizontal center of a bbox: `(bbox[0] + bbox[2]) / 2`. -/
def hCenter (b : BBox) : ℚ := (b.x0 + b.x1) / 2

/-- Vertical center of a bbox: `(bbox[1] + bbox[3]) / 2`. -/
def vCenter (b : BBox) : ℚ := (b.y0 + b.y1) / 2

/-- Center point of a bbox. -/
def bboxCenter (b : BBox) : ℚ × ℚ := (hCenter b, vCenter b)

/-- Squared Euclidean distance between two centers (see the header note on
sqrt-free modelling). -/
def dist2 (a b : ℚ × ℚ) : ℚ := (a.1 - b.1) ^ 2 + (a.2 - b.2) ^ 2

/-- The `is_near_cell` predicate of `get_image_for_service`:
`|dx| < 50 and |dy| < 30`, tolerances checked independently. -/
def nearQ (c cc : ℚ × ℚ) : Prop := |c.1 - cc.1| < 50 ∧ |c.2 - cc.2| < 30

instance (c cc : ℚ × ℚ) : Decidable (nearQ c cc) := by
  unfold nearQ; infer_instance

/-- Loop of `get_image_for_service`: the running state is
`(closest_image, min_distance)`, `none` standing for
`(None, float("inf"))` — the distance of a near candidate always beats the
initial infinite minimum, so in the `none` state only nearness is tested. -/
def gifsLoop (cc : ℚ × ℚ) : List Img → Option (Img × ℚ) → Option (Img × ℚ)
  | [], st => st
  | img :: rest, st =>
    match st with
    | none =>
      if nearQ (bboxCenter img.bbox) cc then
        gifsLoop cc rest (some (img, dist2 (bboxCenter img.bbox) cc))
      else gifsLoop cc rest none
    | some p =>
      if nearQ (bboxCenter img.bbox) cc ∧ dist2 (bboxCenter img.bbox) cc < p.2 then
        gifsLoop cc rest (some (img, dist2 (bboxCenter img.bbox) cc))
      else gifsLoop cc rest (some p)

/-- `get_image_for_service(service_name, page_images, cell_bbox)`: scan all
candidates, keep the minimum-distance one among those near the cell center;
`None` when no candidate is near.  (`service_name` is never read.) -/
def get_image_for_service (service_name : String) (page_images : List Img)
    (cell_bbox : BBox) : Option Img :=
  (gifsLoop (bboxCenter cell_bbox) page_images none).map (fun p => p.1)

/-- `get_image_rect(page, xref)`: first drawing whose `fill_image` equals the
xref; `None` otherwise. -/
def get_image_rect : List Drawing → Nat → Option BBox
  | [], _ => none
  | d :: ds, xref => if d.fill_image = some xref then some d.rect else get_image_rect ds xref

/-- Python truthiness of a PyMuPDF `Rect`: `bool(rect)` is false exactly when
all four components are zero (the geometry objects define `__bool__` as
`max(self) == min(self) == 0` being false). -/
def rectBool (b : BBox) : Bool :=
  !(decide (b.x0 = 0) && decide (b.y0 = 0) && decide (b.x1 = 0) && decide (b.y1 = 0))

/-- Bbox resolution step of `extract_images_from_page`: `if rect:` is a
truthiness test, so the matched drawing's rect is used only when it exists
and is truthy (not the all-zero rect); a missing match and a falsy all-zero
rect both fall back to the full page rectangle `(0, 0, width, height)`. -/
def resolve_bbox (pm : PageMeta) (xref : Nat) : BBox :=
  match get_image_rect pm.drawings xref with
  | some r => if rectBool r then r else ⟨0, 0, pm.width, pm.height⟩
  | none => ⟨0, 0, pm.width, pm.height⟩

/-- `extract_images_from_page` restricted to the successfully decoded images
(a decode/encode exception skips the image; I/O is out of scope): each raw
image becomes a record with its resolved bbox. -/
def extract_images_from_page (pm : PageMeta) (raws : List RawImage) : List Img :=
  raws.map (fun r => { data := r.data, format := r.format, bbox := resolve_bbox pm r.xref })

/-- `is_image_in_cell(image, cell_bbox)`: the image's bbox center lies in the
rectangle, edges included (`<=` chains in the source). -/
def is_image_in_cell (image : Img) (cell_bbox : BBox) : Bool :=
  let img_x := (image.bbox.x0 + image.bbox.x1) / 2
  let img_y := (image.bbox.y0 + image.bbox.y1) / 2
  decide (cell_bbox.x0 ≤ img_x ∧ img_x ≤ cell_bbox.x1) &&
    decide (cell_bbox.y0 ≤ img_y ∧ img_y ≤ cell_bbox.y1)

/-- Spec-side wording of §4.1 `contains`: point-in-rectangle, inclusive of
edges, applied to the image's center point. -/
def bboxContainsCenter (cell_bbox : BBox) (image : Img) : Prop :=
  cell_bbox.x0 ≤ hCenter image.bbox ∧ hCenter image.bbox ≤ cell_bbox.x1 ∧
    cell_bbox.y0 ≤ vCenter image.bbox ∧ vCenter image.bbox ≤ cell_bbox.y1

instance (b : BBox) (i : Img) : Decidable (bboxContainsCenter b i) := by
  unfold bboxContainsCenter; infer_instance

/-- `html.escape` on one character (quote=True: the five default
replacements).  Applying it characterwise agrees with the source's
sequential `str.replace` calls because no replacement output contains a
character that a later replacement rewrites. -/
def escapeChar (c : Char) : String :=
  if c = '&' then ("&amp;")
  else if c = '<' then ("&lt;")
  else if c = '>' then ("&gt;")
  else if c = '"' then ("&quot;")
  else if c = '\'' then ("&#x27;")
  else String.singleton c

/-- `html.escape(s)` with the default `quote=True`. -/
def escape (s : String) : String := String.join (s.data.map escapeChar)

/-- Python `str` whitespace for `strip()` (the ASCII cases; the source text
comes from `extract_text`, which emits ASCII whitespace). -/
def isPySpace (c : Char) : Bool :=
  c = ' ' || c = '\t' || c = '\n' || c = '\r' || c = '\x0b' || c = '\x0c'

/-- Python `s.strip()`: drop leading and trailing whitespace. -/
def pyStrip (s : String) : String :=
  String.mk (((s.data.dropWhile isPySpace).reverse.dropWhile isPySpace).reverse)

/-- Helper for the substring test: does `needle` start at the head of the
haystack? -/
def beginsWith : List Char → List Char → Bool
  | [], _ => true
  | _ :: _, [] => false
  | a :: as, b :: bs => a = b && beginsWith as bs

/-- Substring occurrence on character lists (Python's `needle in haystack`). -/
def occursInList (needle : List Char) : List Char → Bool
  | [] => beginsWith needle []
  | c :: t => beginsWith needle (c :: t) || occursInList needle t

/-- Python's string containment `needle in haystack`. -/
def occursIn (needle haystack : String) : Bool :=
  occursInList needle.data haystack.data

/-- `html.escape(str(cell)) if cell else ''`: `None` and the empty string are
falsy. -/
def cellStr (c : Option String) : String :=
  match c with
  | none => ""
  | some s => if s == "" then "" else escape s

/-- The service-icon `img` element emitted when a data row's first column
receives an image. -/
def serviceImgTag (img : Img) : String :=
  "<img src=\"data:image/" ++ img.format ++ ";base64," ++ img.data ++
    "\" class=\"service-icon\" alt=\"Service icon\">"

/-- The `service-name` span (emitted only for a truthy cell). -/
def serviceName (c : Option String) : String :=
  match c with
  | none => ""
  | some s =>
    if s == "" then ""
    else "<span class=\"service-name\">" ++ escape s ++ "</span>"

/-- Header-row cells: one `th` per cell of `table[0]`. -/
def headerCells : List (Option String) → String
  | [] => ""
  | c :: cs =>
    "<th style=\"border:1px solid #ddd; padding:8px; text-align:left;\">" ++
      cellStr c ++ "</th>\n" ++ headerCells cs

/-- One data row's cells, threading the `sorted_images` queue.  `i` is
`col_index`; only column 0 pops the queue (`sorted_images.pop(0)` when the
queue is non-empty). -/
def renderRow : List (Option String) → Nat → List Img → String × List Img
  | [], _, q => ("", q)
  | c :: cs, i, q =>
    if i = 0 then
      match q with
      | img :: q' =>
        let rest := renderRow cs (i + 1) q'
        ("<td style=\"border:1px solid #ddd; padding:8px; vertical-align:middle;\">" ++
          "<div class=\"service-cell\">" ++ serviceImgTag img ++ serviceName c ++
          "</div></td>\n" ++ rest.1, rest.2)
      | [] =>
        let rest := renderRow cs (i + 1) q
        ("<td style=\"border:1px solid #ddd; padding:8px; vertical-align:middle;\">" ++
          "<div class=\"service-cell\">" ++ serviceName c ++
          "</div></td>\n" ++ rest.1, rest.2)
    else
      let rest := renderRow cs (i + 1) q
      ("<td style=\"border:1px solid #ddd; padding:8px;\">" ++ cellStr c ++
        "</td>\n" ++ rest.1, rest.2)

/-- The data-row loop (`for row_index in range(1, len(table))`), threading the
`sorted_images` queue across rows.  The source's `row_height`/`row_y` locals
are computed but never read and are omitted. -/
def dataRows : List (List (Option String)) → List Img → String × List Img
  | [], q => ("", q)
  | r :: rs, q =>
    let row := renderRow r 0 q
    let rest := dataRows rs row.2
    ("<tr>\n" ++ row.1 ++ "</tr>\n" ++ rest.1, rest.2)

/-- Stable insertion of an image into a list sorted by ascending vertical
center: the new image goes after every element whose key is `≤` its own, so
equal keys keep their original relative order. -/
def insertImg : List Img → Img → List Img
  | [], i => [i]
  | j :: js, i =>
    if vCenter j.bbox ≤ vCenter i.bbox then j :: insertImg js i
    else i :: j :: js

/-- `sorted(page_images, key=lambda x: (x["bbox"][1] + x["bbox"][3]) / 2)`:
Python's stable sort, realised as stable insertion sort (see header note). -/
def sortPool (page_images : List Img) : List Img :=
  page_images.foldl insertImg []

/-- Markup for one non-empty table: header row verbatim, then the data rows
drawing icons from a fresh sort of the full image pool. -/
def tableHtml (t : Table) (page_images : List Img) : String :=
  "<table style=\"width:100%; border-collapse:collapse;\">\n" ++
    "<tr>\n" ++ headerCells (t.rows.headD []) ++ "</tr>\n" ++
    (dataRows (t.rows.drop 1) (sortPool page_images)).1 ++
    "</table>"

/-- `extract_tables_with_images(page, page_images)` with the mutable
`page_images` list threaded as state.  In the source each table builds its
own `sorted_images = sorted(page_images, ...)` copy and pops only that copy,
so the input list object is returned as the final state.  A falsy (empty)
table is skipped by `continue`. -/
def extract_tables_with_images_st : List Table → List Img → List String × List Img
  | [], page_images => ([], page_images)
  | t :: ts, page_images =>
    if t.rows.isEmpty then extract_tables_with_images_st ts page_images
    else
      let h := tableHtml t page_images
      let rest := extract_tables_with_images_st ts page_images
      (h :: rest.1, rest.2)

/-- Number of data rows that have at least one cell (only those execute the
column-0 branch and can pop the queue). -/
def countNonempty (rows : List (List (Option String))) : Nat :=
  (rows.filter (fun r => !r.isEmpty)).length

/-- The images a table's reconstruction pops from the sorted pool: the sorted
queue minus what `dataRows` leaves over (pops only ever remove the head). -/
def consumedByTable (t : Table) (page_images : List Img) : List Img :=
  let q := sortPool page_images
  q.take (q.length - (dataRows (t.rows.drop 1) q).2.length)

/-- The standalone classification of `extract_pdf_content`: keep the images
whose center is contained in no found table's bbox.  (The source's
`if page_images:` guard is redundant: an empty pool yields an empty list
either way.) -/
def standaloneImages (page_images : List Img) (found_tables : List Table) : List Img :=
  page_images.filter
    (fun img => !(found_tables.any (fun t => is_image_in_cell img t.bbox)))

/-- The standalone `img` element emitted by `convert_to_html`. -/
def standaloneImgTag (img : Img) (page_number : Nat) : String :=
  "<img src=\"data:image/" ++ img.format ++ ";base64," ++ img.data ++
    "\" alt=\"Page " ++ toString page_number ++ " image\" " ++
    "style=\"max-width:100%; height:auto;\">\n"

/-- One text block's markup: strip, escape, then turn internal newlines into
`<br>`. -/
def textBlockDiv (block : String) : String :=
  "<div class=\"text-block\">" ++
    ((escape (pyStrip block)).replace ("\n") ("<br>")) ++ "</div>\n"

/-- The standalone images that survive the dedup guard of `convert_to_html`:
those whose payload occurs verbatim in no table fragment. -/
def emittedStandalone (tables_html : List String) (imgs : List Img) : List Img :=
  imgs.filter (fun img => !(tables_html.any (fun tbl => occursIn img.data tbl)))

/-- The per-page body of `convert_to_html`, written as the source writes it:
an accumulator string grown by `+=` across the three loops. -/
def pageHtml (p : PageContent) : String :=
  let h0 := "<div class=\"page\" id=\"page-" ++ toString p.page_number ++ "\">\n" ++
    ("<h2>Page " ++ toString p.page_number ++ "</h2>\n")
  let h1 := p.tables.foldl (fun acc tbl => acc ++ (tbl ++ "\n")) h0
  let h2 := p.images.foldl
    (fun acc img =>
      if p.tables.any (fun tbl => occursIn img.data tbl) then acc
      else acc ++ standaloneImgTag img p.page_number) h1
  let h3 :=
    match p.text with
    | none => h2
    | some txt =>
      if txt == "" then h2
      else (txt.splitOn ("\n\n")).foldl
        (fun acc b => if pyStrip b == "" then acc else acc ++ textBlockDiv b) h2
  h3 ++ "</div>\n"

/-- Structured restatement of the page body (for the emission-order claim):
tables in order, then the dedup-surviving standalone images, then the
non-blank text blocks. -/
def pageHtmlSpec (p : PageContent) : String :=
  "<div class=\"page\" id=\"page-" ++ toString p.page_number ++ "\">\n" ++
    ("<h2>Page " ++ toString p.page_number ++ "</h2>\n") ++
    String.join (p.tables.map (fun tbl => tbl ++ "\n")) ++
    String.join ((emittedStandalone p.tables p.images).map
      (fun img => standaloneImgTag img p.page_number)) ++
    (match p.text with
     | none => ""
     | some txt =>
       if txt == "" then ""
       else String.join (((txt.splitOn ("\n\n")).filter
         (fun b => !(pyStrip b == ""))).map textBlockDiv)) ++
    "</div>\n"

/-- The per-page pipeline of `extract_pdf_content` plus `convert_to_html`:
reconstruct tables (threading the image-pool state), classify standalone
images from the pool's final state, and assemble the page body. -/
def pagePipeline (found : List Table) (page_images : List Img)
    (text : Option String) (page_number : Nat) : String × List Img :=
  let tr := extract_tables_with_images_st found page_images
  let standalone := standaloneImages tr.2 found
  (pageHtml { text := text, tables := tr.1, images := standalone,
              page_number := page_number }, tr.2)

/-- Concrete table bbox used by the counterexamples. -/
def bbTable : BBox := ⟨0, 0, 10, 10⟩

/-- Concrete image whose center `(5, 5)` lies inside `bbTable`. -/
def imgIn : Img := ⟨"AAAA", "png", ⟨4, 4, 6, 6⟩⟩

/-- Concrete image whose center `(5, 5)` lies outside the small bbox used by
`tblOneRow`. -/
def imgOut : Img := ⟨"BBBB", "png", ⟨4, 4, 6, 6⟩⟩

/-- A table with a header row only (no data rows). -/
def tblHeaderOnly : Table := ⟨[[some ("H")]], bbTable⟩

/-- A table with one header row and one (non-empty) data row, with a bbox
that does not contain `imgOut`'s center. -/
def tblOneRow : Table := ⟨[[some ("H")], [some ("svc")]], ⟨0, 0, 1, 1⟩⟩

/-- A table whose single data row has zero cells. -/
def tblEmptyRow : Table := ⟨[[some ("H")], []], bbTable⟩

/-- A table with zero rows (falsy in the source's `if not table:` guard). -/
def tblZeroRows : Table := ⟨[], bbTable⟩

/-- Concrete page metadata with one drawing whose `fill_image` is xref 7. -/
def pmW : PageMeta := ⟨100, 200, [⟨some 7, ⟨1, 2, 3, 4⟩⟩]⟩

/-- Concrete raw image whose xref matches `pmW`'s drawing. -/
def rawMatch : RawImage := ⟨7, "XX", "png"⟩

/-- Concrete raw image whose xref matches no drawing of `pmW`. -/
def rawNoMatch : RawImage := ⟨9, "YY", "png"⟩

/-- Concrete page metadata whose single drawing matches xref 7 but carries
the all-zero (Python-falsy) rectangle. -/
def pmZ : PageMeta := ⟨100, 200, [⟨some 7, ⟨0, 0, 0, 0⟩⟩]⟩

/-- Concrete cell bbox (center `(5, 5)`) for the nearest-image witness. -/
def bbCell : BBox := ⟨0, 0, 10, 10⟩

/-- Near candidate with center `(1, 1)`: squared distance 32 to `bbCell`'s
center. -/
def imgNearA : Img := ⟨"NA", "png", ⟨0, 0, 2, 2⟩⟩

/-- Near candidate with center `(5, 5)`: squared distance 0 to `bbCell`'s
center. -/
def imgNearB : Img := ⟨"NB", "png", ⟨4, 4, 6, 6⟩⟩

/-- Far candidate with center `(105, 5)`: fails the horizontal tolerance. -/
def imgFar : Img := ⟨"NF", "png", ⟨100, 0, 110, 10⟩⟩

theorem bw_self (n t : List Char) : beginsWith n (n ++ t) = true := by
  induction n with
  | nil => rfl
  | cons a as ih => simp [beginsWith, ih]

theorem bw_refl (n : List Char) : beginsWith n n = true := by
  simpa using bw_self n []

theorem bw_extend (n h t : List Char) (hb : beginsWith n h = true) :
    beginsWith n (h ++ t) = true := by
  induction n generalizing h with
  | nil => rfl
  | cons a as ih =>
    cases h with
    | nil => simp [beginsWith] at hb
    | cons b bs =>
      simp only [beginsWith, Bool.and_eq_true, decide_eq_true_eq] at hb
      simp only [List.cons_append, beginsWith, Bool.and_eq_true, decide_eq_true_eq]
      exact ⟨hb.1, ih bs hb.2⟩

theorem occL_self_pre (n t : List Char) : occursInList n (n ++ t) = true := by
  cases n with
  | nil => cases t <;> simp [occursInList, beginsWith]
  | cons c cs =>
    simp only [List.cons_append, occursInList, Bool.or_eq_true]
    exact Or.inl (by simpa using bw_self (c :: cs) t)

theorem occL_left (n a b : List Char) (h : occursInList n a = true) :
    occursInList n (a ++ b) = true := by
  induction a with
  | nil =>
    cases n with
    | nil => exact occL_self_pre [] b
    | cons c cs => simp [occursInList, beginsWith] at h
  | cons c t ih =>
    simp only [occursInList, Bool.or_eq_true] at h
    simp only [List.cons_append, occursInList, Bool.or_eq_true]
    rcases h with hb | ho
    · exact Or.inl (by simpa using bw_extend n (c :: t) b hb)
    · exact Or.inr (ih ho)

theorem occL_right (n a b : List Char) (h : occursInList n b = true) :
    occursInList n (a ++ b) = true := by
  induction a with
  | nil => simpa using h
  | cons c t ih =>
    simp only [List.cons_append, occursInList, Bool.or_eq_true]
    exact Or.inr ih

theorem occS_left (d a b : String) (h : occursIn d a = true) :
    occursIn d (a ++ b) = true := by
  unfold occursIn at *
  rw [String.data_append]
  exact occL_left _ _ _ h

theorem occS_right (d a b : String) (h : occursIn d b = true) :
    occursIn d (a ++ b) = true := by
  unfold occursIn at *
  rw [String.data_append]
  exact occL_right _ _ _ h

theorem occursIn_self (d : String) : occursIn d d = true := by
  unfold occursIn
  simpa using occL_self_pre d.data []

theorem occS_self_left (d b : String) : occursIn d (d ++ b) = true :=
  occS_left d d b (occursIn_self d)

theorem mem_insertImg (l : List Img) (i x : Img) :
    x ∈ insertImg l i ↔ x = i ∨ x ∈ l := by
  induction l with
  | nil => simp [insertImg]
  | cons j js ih =>
    by_cases h : vCenter j.bbox ≤ vCenter i.bbox
    · simp only [insertImg, h, if_true, List.mem_cons, ih]
      tauto
    · simp only [insertImg, h, if_false, List.mem_cons]

theorem insertImg_perm (l : List Img) (i : Img) :
    List.Perm (insertImg l i) (i :: l) := by
  induction l with
  | nil => exact List.Perm.refl _
  | cons j js ih =>
    by_cases h : vCenter j.bbox ≤ vCenter i.bbox
    · simp only [insertImg, h, if_true]
      exact ((ih.cons j).trans (List.Perm.swap i j js))
    · simp only [insertImg, h, if_false]
      exact List.Perm.refl _

theorem pairwise_insertImg (l : List Img) (i : Img)
    (hl : List.Pairwise (fun a b : Img => vCenter a.bbox ≤ vCenter b.bbox) l) :
    List.Pairwise (fun a b : Img => vCenter a.bbox ≤ vCenter b.bbox) (insertImg l i) := by
  induction l with
  | nil => simp [insertImg]
  | cons j js ih =>
    rw [List.pairwise_cons] at hl
    by_cases h : vCenter j.bbox ≤ vCenter i.bbox
    · simp only [insertImg, h, if_true]
      rw [List.pairwise_cons]
      refine ⟨fun x hx => ?_, ih hl.2⟩
      rcases (mem_insertImg js i x).mp hx with hxe | hxm
      · exact hxe ▸ h
      · exact hl.1 x hxm
    · simp only [insertImg, h, if_false]
      rw [List.pairwise_cons]
      have hi : vCenter i.bbox ≤ vCenter j.bbox := le_of_not_le h
      refine ⟨fun x hx => ?_, List.pairwise_cons.mpr hl⟩
      rcases List.mem_cons.mp hx with hxe | hxm
      · exact hxe ▸ hi
      · exact le_trans hi (hl.1 x hxm)

theorem sortPoolAux_perm (l : List Img) :
    ∀ acc : List Img, List.Perm (l.foldl insertImg acc) (acc ++ l) := by
  induction l with
  | nil => intro acc; simp
  | cons x xs ih =>
    intro acc
    have h1 : (x :: xs).foldl insertImg acc = xs.foldl insertImg (insertImg acc x) := rfl
    have h3 : List.Perm ((insertImg acc x) ++ xs) ((x :: acc) ++ xs) :=
      (insertImg_perm acc x).append_right xs
    have h4 : List.Perm ((x :: acc) ++ xs) (acc ++ x :: xs) := List.perm_middle.symm
    exact h1 ▸ ((ih (insertImg acc x)).trans (h3.trans h4))

theorem sortPool_perm (pool : List Img) : List.Perm (sortPool pool) pool := by
  simpa using sortPoolAux_perm pool []

theorem sortPool_pairwise (pool : List Img) :
    List.Pairwise (fun a b : Img => vCenter a.bbox ≤ vCenter b.bbox) (sortPool pool) := by
  have haux : ∀ (l acc : List Img),
      List.Pairwise (fun a b : Img => vCenter a.bbox ≤ vCenter b.bbox) acc →
      List.Pairwise (fun a b : Img => vCenter a.bbox ≤ vCenter b.bbox) (l.foldl insertImg acc) := by
    intro l
    induction l with
    | nil => intro acc h; exact h
    | cons x xs ih => intro acc h; exact ih _ (pairwise_insertImg acc x h)
  exact haux pool [] (by simp)

theorem sortPool_length (pool : List Img) : (sortPool pool).length = pool.length :=
  (sortPool_perm pool).length_eq

theorem countNonempty_nil : countNonempty [] = 0 := rfl

theorem countNonempty_cons_nil (rs : List (List (Option String))) :
    countNonempty ([] :: rs) = countNonempty rs := by
  simp [countNonempty, List.filter_cons]

theorem countNonempty_cons_cons (c : Option String) (cs : List (Option String))
    (rs : List (List (Option String))) :
    countNonempty ((c :: cs) :: rs) = countNonempty rs + 1 := by
  simp [countNonempty, List.filter_cons]

theorem renderRow_snd_succ (cs : List (Option String)) :
    ∀ (i : Nat) (q : List Img), (renderRow cs (i + 1) q).2 = q := by
  induction cs with
  | nil => intro i q; rfl
  | cons c cs ih =>
    intro i q
    simp only [renderRow, Nat.succ_ne_zero, if_false]
    exact ih (i + 1) q

theorem renderRow_snd_zero (r : List (Option String)) (q : List Img) :
    (renderRow r 0 q).2 = if r.isEmpty then q else q.drop 1 := by
  cases r with
  | nil => rfl
  | cons c cs =>
    cases q with
    | nil => simp [renderRow, renderRow_snd_succ]
    | cons i q' => simp [renderRow, renderRow_snd_succ]

theorem dataRows_snd (rs : List (List (Option String))) :
    ∀ q : List Img, (dataRows rs q).2 = q.drop (countNonempty rs) := by
  induction rs with
  | nil => intro q; simp [dataRows, countNonempty_nil]
  | cons r rs ih =>
    intro q
    cases r with
    | nil =>
      rw [countNonempty_cons_nil]
      simpa [dataRows, renderRow] using ih q
    | cons c cs =>
      rw [countNonempty_cons_cons]
      have hrr : (renderRow (c :: cs) 0 q).2 = q.drop 1 := by
        simpa using renderRow_snd_zero (c :: cs) q
      simp only [dataRows, hrr, ih (q.drop 1), List.drop_drop]
      rw [Nat.add_comm]

theorem consumedByTable_eq (t : Table) (pool : List Img) :
    consumedByTable t pool = (sortPool pool).take (countNonempty (t.rows.drop 1)) := by
  simp only [consumedByTable]
  rw [dataRows_snd, List.length_drop]
  rcases le_or_lt (countNonempty (t.rows.drop 1)) (sortPool pool).length with h | h
  · congr 1
    omega
  · have h1 : (sortPool pool).length - ((sortPool pool).length - countNonempty (t.rows.drop 1))
        = (sortPool pool).length := by omega
    rw [h1, List.take_length, List.take_of_length_le (le_of_lt h)]

theorem occurs_dataRows (rs : List (List (Option String))) :
    ∀ (q : List Img) (img : Img), img ∈ q.take (countNonempty rs) →
      occursIn img.data (dataRows rs q).1 = true := by
  induction rs with
  | nil => intro q img h; simp [countNonempty_nil] at h
  | cons r rs ih =>
    intro q img h
    cases r with
    | nil =>
      rw [countNonempty_cons_nil] at h
      have hrec := ih q img h
      simp only [dataRows, renderRow]
      exact occS_right _ _ _ hrec
    | cons c cs =>
      rw [countNonempty_cons_cons] at h
      cases q with
      | nil => simp at h
      | cons i q' =>
        rw [List.take_succ_cons] at h
        have hq' : (renderRow (c :: cs) 0 (i :: q')).2 = q' := by
          simpa using renderRow_snd_zero (c :: cs) (i :: q')
        rcases List.mem_cons.mp h with heq | hmem
        · -- the popped head's payload sits inside this row's markup
          subst heq
          simp only [dataRows, renderRow, if_pos rfl]
          apply occS_left
          apply occS_left
          apply occS_right
          apply occS_left
          apply occS_left
          apply occS_left
          apply occS_right
          unfold serviceImgTag
          apply occS_left
          apply occS_right
          exact occursIn_self _
        · have hrec := ih q' img hmem
          simp only [dataRows, hq']
          exact occS_right _ _ _ hrec

theorem occurs_tableHtml (t : Table) (pool : List Img) (img : Img)
    (h : img ∈ consumedByTable t pool) :
    occursIn img.data (tableHtml t pool) = true := by
  rw [consumedByTable_eq] at h
  have hocc := occurs_dataRows (t.rows.drop 1) (sortPool pool) img h
  unfold tableHtml
  exact occS_left _ _ _ (occS_right _ _ _ hocc)

theorem st_fst (ts : List Table) (pool : List Img) :
    (extract_tables_with_images_st ts pool).1
      = (ts.filter (fun t => !t.rows.isEmpty)).map (fun t => tableHtml t pool) := by
  induction ts with
  | nil => rfl
  | cons t ts ih =>
    by_cases h : t.rows.isEmpty <;>
      simp [extract_tables_with_images_st, h, List.filter_cons, ih]

theorem st_snd (ts : List Table) (pool : List Img) :
    (extract_tables_with_images_st ts pool).2 = pool := by
  induction ts with
  | nil => rfl
  | cons t ts ih =>
    by_cases h : t.rows.isEmpty <;> simp [extract_tables_with_images_st, h, ih]

theorem consumed_not_emitted (found : List Table) (pool : List Img) (img : Img)
    (t : Table) (ht : t ∈ found) (hr : t.rows.isEmpty = false)
    (hc : img ∈ consumedByTable t pool) :
    img ∉ emittedStandalone (extract_tables_with_images_st found pool).1
      (standaloneImages pool found) := by
  intro hmem
  unfold emittedStandalone at hmem
  rw [List.mem_filter] at hmem
  have hocc : occursIn img.data (tableHtml t pool) = true := occurs_tableHtml t pool img hc
  have hin : tableHtml t pool ∈ (extract_tables_with_images_st found pool).1 := by
    rw [st_fst]
    exact List.mem_map_of_mem _ (List.mem_filter.mpr ⟨ht, by simp [hr]⟩)
  have hpred := hmem.2
  simp only [Bool.not_eq_true', List.any_eq_false] at hpred
  exact absurd hocc (by simpa using hpred _ hin)

theorem sfoldl_append (l : List String) :
    ∀ a b : String, l.foldl (fun x y => x ++ y) (a ++ b) = a ++ l.foldl (fun x y => x ++ y) b := by
  induction l with
  | nil => intro a b; rfl
  | cons s l ih =>
    intro a b
    simp only [List.foldl_cons]
    rw [String.append_assoc]
    exact ih a (b ++ s)

theorem sjoin_cons (s : String) (l : List String) :
    String.join (s :: l) = s ++ String.join l := by
  show l.foldl (fun x y => x ++ y) ("" ++ s) = s ++ l.foldl (fun x y => x ++ y) ""
  rw [String.empty_append]
  calc l.foldl (fun x y => x ++ y) s
      = l.foldl (fun x y => x ++ y) (s ++ "") := by rw [String.append_empty]
    _ = s ++ l.foldl (fun x y => x ++ y) "" := sfoldl_append l s ""

theorem foldl_append_join {α : Type} (l : List α) (f : α → String) :
    ∀ init : String,
      l.foldl (fun acc x => acc ++ f x) init = init ++ String.join (l.map f) := by
  induction l with
  | nil => intro init; simp [String.join, String.append_empty]
  | cons x l ih =>
    intro init
    simp only [List.foldl_cons, List.map_cons, sjoin_cons]
    rw [ih (init ++ f x), String.append_assoc]

theorem foldl_skip_join {α : Type} (l : List α) (p : α → Bool) (f : α → String) :
    ∀ init : String,
      l.foldl (fun acc x => if p x then acc else acc ++ f x) init
        = init ++ String.join (((l.filter (fun x => !p x)).map f)) := by
  induction l with
  | nil => intro init; simp [String.join, String.append_empty]
  | cons x l ih =>
    intro init
    cases hp : p x with
    | true =>
      have h1 : (if p x = true then init else init ++ f x) = init := by simp [hp]
      rw [List.foldl_cons, h1, ih init, List.filter_cons, hp]
      simp
    | false =>
      have h1 : (if p x = true then init else init ++ f x) = init ++ f x := by simp [hp]
      rw [List.foldl_cons, h1, ih (init ++ f x), List.filter_cons, hp]
      simp [sjoin_cons, String.append_assoc]

theorem gifsLoop_no_near (cc : ℚ × ℚ) (l : List Img) :
    ∀ st, (∀ i ∈ l, ¬ nearQ (bboxCenter i.bbox) cc) → gifsLoop cc l st = st := by
  induction l with
  | nil => intro st _; rfl
  | cons x rest ih =>
    intro st h
    have hx := h x (List.mem_cons_self x rest)
    have hrest : ∀ i ∈ rest, ¬ nearQ (bboxCenter i.bbox) cc :=
      fun i hi => h i (List.mem_cons_of_mem x hi)
    cases st with
    | none =>
      simp only [gifsLoop, if_neg hx]
      exact ih none hrest
    | some p =>
      have hc : ¬ (nearQ (bboxCenter x.bbox) cc ∧ dist2 (bboxCenter x.bbox) cc < p.2) :=
        fun hq => hx hq.1
      simp only [gifsLoop, if_neg hc]
      exact ih (some p) hrest

theorem gifsLoop_some_ne_none (cc : ℚ × ℚ) (l : List Img) :
    ∀ p : Img × ℚ, gifsLoop cc l (some p) ≠ none := by
  induction l with
  | nil => intro p h; exact Option.noConfusion h
  | cons x rest ih =>
    intro p
    simp only [gifsLoop]
    split
    · exact ih _
    · exact ih _

theorem gifsLoop_eq_none (cc : ℚ × ℚ) (l : List Img) :
    ∀ st, gifsLoop cc l st = none →
      st = none ∧ ∀ i ∈ l, ¬ nearQ (bboxCenter i.bbox) cc := by
  induction l with
  | nil => intro st h; exact ⟨h, by simp⟩
  | cons x rest ih =>
    intro st h
    cases st with
    | none =>
      by_cases hx : nearQ (bboxCenter x.bbox) cc
      · have h' : gifsLoop cc rest (some (x, dist2 (bboxCenter x.bbox) cc)) = none := by
          simpa [gifsLoop, hx] using h
        exact absurd h' (gifsLoop_some_ne_none cc rest _)
      · have h' : gifsLoop cc rest none = none := by simpa [gifsLoop, hx] using h
        obtain ⟨-, hr⟩ := ih none h'
        refine ⟨rfl, fun i hi => ?_⟩
        rcases List.mem_cons.mp hi with he | hm
        · exact he ▸ hx
        · exact hr i hm
    | some p =>
      exfalso
      simp only [gifsLoop] at h
      split at h
      · exact gifsLoop_some_ne_none cc rest _ h
      · exact gifsLoop_some_ne_none cc rest _ h

theorem gifsLoop_spec (cc : ℚ × ℚ) (l : List Img) :
    ∀ (st : Option (Img × ℚ)) (i : Img) (d : ℚ), gifsLoop cc l st = some (i, d) →
      (st = some (i, d) ∧
        ∀ j ∈ l, nearQ (bboxCenter j.bbox) cc → d ≤ dist2 (bboxCenter j.bbox) cc)
      ∨ (∃ pre suf, l = pre ++ i :: suf
          ∧ d = dist2 (bboxCenter i.bbox) cc
          ∧ nearQ (bboxCenter i.bbox) cc
          ∧ (∀ m : Img × ℚ, st = some m → d < m.2)
          ∧ (∀ j ∈ pre, nearQ (bboxCenter j.bbox) cc → d < dist2 (bboxCenter j.bbox) cc)
          ∧ (∀ j ∈ suf, nearQ (bboxCenter j.bbox) cc → d ≤ dist2 (bboxCenter j.bbox) cc)) := by
  induction l with
  | nil =>
    intro st i d h
    left
    exact ⟨h, by simp⟩
  | cons x rest ih =>
    intro st i d h
    cases st with
    | none =>
      by_cases hx : nearQ (bboxCenter x.bbox) cc
      · have h' : gifsLoop cc rest (some (x, dist2 (bboxCenter x.bbox) cc)) = some (i, d) := by
          simpa [gifsLoop, hx] using h
        rcases ih _ i d h' with ⟨heq, hall⟩ | ⟨pre, suf, hsplit, hd, hnear, hst, hpre, hsuf⟩
        · obtain ⟨hxi, hdx⟩ : x = i ∧ dist2 (bboxCenter x.bbox) cc = d := by
            simpa using heq
          right
          refine ⟨[], rest, by simp [hxi], ?_, ?_, by simp, by simp, hall⟩
          · rw [← hdx, hxi]
          · rw [← hxi]; exact hx
        · have hdx : d < dist2 (bboxCenter x.bbox) cc := hst _ rfl
          right
          refine ⟨x :: pre, suf, by rw [hsplit]; rfl, hd, hnear, by simp, ?_, hsuf⟩
          intro j hj hjn
          rcases List.mem_cons.mp hj with he | hm
          · exact he ▸ hdx
          · exact hpre j hm hjn
      · have h' : gifsLoop cc rest none = some (i, d) := by simpa [gifsLoop, hx] using h
        rcases ih _ i d h' with ⟨heq, -⟩ | ⟨pre, suf, hsplit, hd, hnear, -, hpre, hsuf⟩
        · exact Option.noConfusion heq
        · right
          refine ⟨x :: pre, suf, by rw [hsplit]; rfl, hd, hnear, by simp, ?_, hsuf⟩
          intro j hj hjn
          rcases List.mem_cons.mp hj with he | hm
          · exact absurd (he ▸ hjn) hx
          · exact hpre j hm hjn
    | some p =>
      by_cases hc : nearQ (bboxCenter x.bbox) cc ∧ dist2 (bboxCenter x.bbox) cc < p.2
      · have h' : gifsLoop cc rest (some (x, dist2 (bboxCenter x.bbox) cc)) = some (i, d) := by
          simpa [gifsLoop, hc] using h
        rcases ih _ i d h' with ⟨heq, hall⟩ | ⟨pre, suf, hsplit, hd, hnear, hst, hpre, hsuf⟩
        · obtain ⟨hxi, hdx⟩ : x = i ∧ dist2 (bboxCenter x.bbox) cc = d := by
            simpa using heq
          right
          refine ⟨[], rest, by simp [hxi], by rw [← hdx, hxi], by rw [← hxi]; exact hc.1, ?_, by simp, hall⟩
          · intro m hm
            obtain rfl : p = m := by simpa using hm
            rw [← hdx]; exact hc.2
        · have hdx : d < dist2 (bboxCenter x.bbox) cc := hst _ rfl
          right
          refine ⟨x :: pre, suf, by rw [hsplit]; rfl, hd, hnear, ?_, ?_, hsuf⟩
          · intro m hm
            obtain rfl : p = m := by simpa using hm
            exact lt_trans hdx hc.2
          · intro j hj hjn
            rcases List.mem_cons.mp hj with he | hm
            · exact he ▸ hdx
            · exact hpre j hm hjn
      · have h' : gifsLoop cc rest (some p) = some (i, d) := by
          simpa [gifsLoop, hc] using h
        rcases ih _ i d h' with ⟨heq, hall⟩ | ⟨pre, suf, hsplit, hd, hnear, hst, hpre, hsuf⟩
        · obtain rfl : p = (i, d) := by simpa using heq
          left
          refine ⟨rfl, fun j hj hjn => ?_⟩
          rcases List.mem_cons.mp hj with he | hm
          · subst he
            have : ¬ dist2 (bboxCenter j.bbox) cc < d := fun hlt => hc ⟨hjn, hlt⟩
            exact le_of_not_lt this
          · exact hall j hm hjn
        · have hdp : d < p.2 := hst p rfl
          right
          refine ⟨x :: pre, suf, by rw [hsplit]; rfl, hd, hnear, hst, ?_, hsuf⟩
          intro j hj hjn
          rcases List.mem_cons.mp hj with he | hm
          · subst he
            have hge : ¬ dist2 (bboxCenter j.bbox) cc < p.2 := fun hlt => hc ⟨hjn, hlt⟩
            exact lt_of_lt_of_le hdp (le_of_not_lt hge)
          · exact hpre j hm hjn

theorem gir_no_match (x : Nat) : ∀ ds : List Drawing,
    (∀ d ∈ ds, d.fill_image ≠ some x) → get_image_rect ds x = none := by
  intro ds
  induction ds with
  | nil => intro _; rfl
  | cons d ds ih =>
    intro h
    have hd := h d (List.mem_cons_self d ds)
    simp only [get_image_rect, if_neg hd]
    exact ih (fun e he => h e (List.mem_cons_of_mem d he))

theorem gir_first (x : Nat) (d : Drawing) (hd : d.fill_image = some x) :
    ∀ ds₁ ds₂ : List Drawing, (∀ e ∈ ds₁, e.fill_image ≠ some x) →
      get_image_rect (ds₁ ++ d :: ds₂) x = some d.rect := by
  intro ds₁
  induction ds₁ with
  | nil => intro ds₂ _; simp [get_image_rect, hd]
  | cons e es ih =>
    intro ds₂ h
    have he := h e (List.mem_cons_self e es)
    simp only [List.cons_append, get_image_rect, if_neg he]
    exact ih ds₂ (fun a ha => h a (List.mem_cons_of_mem e ha))

theorem standalone_in_empty : standaloneImages [imgIn] [tblHeaderOnly] = [] := by
  norm_num [standaloneImages, is_image_in_cell, imgIn, tblHeaderOnly, bbTable, List.filter]

theorem standalone_out_one : standaloneImages [imgOut] [tblOneRow] = [imgOut] := by
  norm_num [standaloneImages, is_image_in_cell, imgOut, tblOneRow, List.filter]

theorem consumed_headerOnly : consumedByTable tblHeaderOnly [imgIn] = [] := by
  rw [consumedByTable_eq]
  rfl

theorem consumed_oneRow : consumedByTable tblOneRow [imgOut] = [imgOut] := by
  rw [consumedByTable_eq]
  rfl

/-- Claim C1 counterexample: on a page whose single table consists of a
header row only, an image whose center lies inside that table's bbox is
neither consumed into any table row nor emitted as a standalone image — it
lands in neither destination, refuting "exactly one". -/
theorem c1_counterexample :
    ¬ ((∃ t ∈ [tblHeaderOnly], t.rows.isEmpty = false ∧ imgIn ∈ consumedByTable t [imgIn])
      ∨ imgIn ∈ emittedStandalone
          (extract_tables_with_images_st [tblHeaderOnly] [imgIn]).1
          (standaloneImages [imgIn] [tblHeaderOnly])) := by
  rintro (⟨t, ht, -, hc⟩ | hmem)
  · obtain rfl := List.mem_singleton.mp ht
    rw [consumed_headerOnly] at hc
    exact absurd hc (List.not_mem_nil _)
  · rw [standalone_in_empty] at hmem
    simp [emittedStandalone] at hmem

/-- Claim C1 (amended): every image lands in at most one destination — an
image consumed into some table's rows is never also emitted standalone,
because its payload occurs verbatim in that table's fragment and the dedup
guard suppresses it; an image may however land in neither destination. -/
theorem c1_amended_at_most_one (found : List Table) (pool : List Img) (img : Img)
    (t : Table) (ht : t ∈ found) (hr : t.rows.isEmpty = false)
    (hc : img ∈ consumedByTable t pool) :
    img ∉ emittedStandalone (extract_tables_with_images_st found pool).1
      (standaloneImages pool found) :=
  consumed_not_emitted found pool img t ht hr hc

/-- Claim C1 witness: a concrete consumed image is indeed not emitted
standalone. -/
theorem c1_witness :
    imgOut ∉ emittedStandalone (extract_tables_with_images_st [tblOneRow] [imgOut]).1
      (standaloneImages [imgOut] [tblOneRow]) :=
  c1_amended_at_most_one [tblOneRow] [imgOut] imgOut tblOneRow
    (List.mem_singleton.mpr rfl) (by decide)
    (by rw [consumed_oneRow]; exact List.mem_singleton.mpr rfl)

/-- Claim C2 counterexample: a (ragged) data row with zero cells never
executes the column-0 branch and pops nothing, so for the table with rows
`[[H], []]` and a one-image pool the consumed images are not the first
`min(|pool|, |dataRows|) = 1` images of the sorted order. -/
theorem c2_counterexample :
    consumedByTable tblEmptyRow [imgIn]
      ≠ (sortPool [imgIn]).take
          (min ([imgIn] : List Img).length (tblEmptyRow.rows.drop 1).length) := by
  decide

/-- Claim C2 (amended): reconstruction sorts the pool once by ascending
vertical bbox center (the sorted queue is pairwise ordered and a permutation
of the pool); popping is per data row with at least one cell, so the
leftover queue is the sorted order minus its first
`min(|pool|, #data rows with ≥ 1 cell)` entries and the consumed images are
exactly that prefix. -/
theorem c2_amended_greedy (t : Table) (pool : List Img) :
    List.Pairwise (fun a b : Img => vCenter a.bbox ≤ vCenter b.bbox) (sortPool pool)
    ∧ List.Perm (sortPool pool) pool
    ∧ (dataRows (t.rows.drop 1) (sortPool pool)).2
        = (sortPool pool).drop (countNonempty (t.rows.drop 1))
    ∧ consumedByTable t pool = (sortPool pool).take (countNonempty (t.rows.drop 1)) :=
  ⟨sortPool_pairwise pool, sortPool_perm pool, dataRows_snd (t.rows.drop 1) (sortPool pool),
    consumedByTable_eq t pool⟩

/-- Claim C3 counterexample: every table draws from the full page pool and
the standalone classifier is independent of consumption, so one image, one
table with a data row, and a table bbox not containing the image's center
give `|standalone| + Σ|consumed| = 2 > 1 = |pageImages|`. -/
theorem c3_counterexample :
    ¬ ((standaloneImages [imgOut] [tblOneRow]).length
        + (([tblOneRow].map (fun t => (consumedByTable t [imgOut]).length)).sum)
        ≤ ([imgOut] : List Img).length) := by
  rw [standalone_out_one]
  simp [consumed_oneRow]

/-- Claim C3 (amended): per table the consumed images number at most
`|pageImages|`, the standalone set numbers at most `|pageImages|`, and no
image consumed by a table is also emitted standalone — but the summed bound
of the original claim fails because each table draws from the full pool. -/
theorem c3_amended_conservation (found : List Table) (pool : List Img) :
    (∀ t ∈ found, (consumedByTable t pool).length ≤ pool.length)
    ∧ (standaloneImages pool found).length ≤ pool.length
    ∧ (∀ img t, t ∈ found → t.rows.isEmpty = false → img ∈ consumedByTable t pool →
        img ∉ emittedStandalone (extract_tables_with_images_st found pool).1
          (standaloneImages pool found)) := by
  refine ⟨fun t _ => ?_, List.length_filter_le _ _, ?_⟩
  · rw [consumedByTable_eq, List.length_take, sortPool_length pool]
    exact min_le_right _ _
  · intro img t ht hr hc
    exact consumed_not_emitted found pool img t ht hr hc

/-- Claim C3 witness: the amended bounds and disjointness at a concrete
page. -/
theorem c3_witness :
    (consumedByTable tblOneRow [imgOut]).length ≤ ([imgOut] : List Img).length
    ∧ imgOut ∉ emittedStandalone
        (extract_tables_with_images_st [tblOneRow] [imgOut]).1
        (standaloneImages [imgOut] [tblOneRow]) :=
  ⟨(c3_amended_conservation [tblOneRow] [imgOut]).1 tblOneRow (List.mem_singleton.mpr rfl),
    (c3_amended_conservation [tblOneRow] [imgOut]).2.2 imgOut tblOneRow
      (List.mem_singleton.mpr rfl) (by decide)
      (by rw [consumed_oneRow]; exact List.mem_singleton.mpr rfl)⟩

/-- Claim C4 counterexample: a zero-row table is skipped by the
`if not table: continue` guard, so it contributes no (not even an empty)
markup table to the output list. -/
theorem c4_counterexample :
    (extract_tables_with_images_st [tblZeroRows] [imgIn]).1.length ≠ 1 := by
  decide

/-- Claim C4 (amended): reconstruction is total (never raises); a table with
zero rows is skipped and contributes nothing to the output list, while any
table with at least one row — in particular one whose header row is empty —
produces exactly one markup table. -/
theorem c4_amended_totality (t : Table) (pool : List Img) :
    (extract_tables_with_images_st [t] pool).1
      = if t.rows.isEmpty then [] else [tableHtml t pool] := by
  by_cases h : t.rows.isEmpty <;> simp [extract_tables_with_images_st, h]

theorem is_image_in_cell_iff (img : Img) (bb : BBox) :
    is_image_in_cell img bb = true ↔ bboxContainsCenter bb img := by
  simp only [is_image_in_cell, bboxContainsCenter, hCenter, vCenter, Bool.and_eq_true,
    decide_eq_true_eq]
  tauto

/-- Claim C5: an image in the page pool is excluded from the standalone set
iff its bbox center lies, edges included, inside the bbox of at least one
found table. -/
theorem c5_standalone_iff (pool : List Img) (found : List Table) (img : Img)
    (h : img ∈ pool) :
    img ∉ standaloneImages pool found ↔ ∃ t ∈ found, bboxContainsCenter t.bbox img := by
  have key : img ∈ standaloneImages pool found
      ↔ ∀ t ∈ found, ¬ bboxContainsCenter t.bbox img := by
    unfold standaloneImages
    rw [List.mem_filter]
    simp only [h, true_and, Bool.not_eq_true', List.any_eq_false]
    constructor
    · intro hall t ht
      rw [← is_image_in_cell_iff]
      simp [hall t ht]
    · intro hall t ht
      rw [is_image_in_cell_iff]
      exact hall t ht
  rw [key]
  push_neg
  simp

/-- Claim C5 witness: a concrete contained image is excluded from the
standalone set. -/
theorem c5_witness : imgIn ∉ standaloneImages [imgIn] [tblHeaderOnly] :=
  (c5_standalone_iff [imgIn] [tblHeaderOnly] imgIn (List.mem_singleton.mpr rfl)).mpr
    ⟨tblHeaderOnly, List.mem_singleton.mpr rfl,
      by norm_num [bboxContainsCenter, hCenter, vCenter, tblHeaderOnly, bbTable, imgIn]⟩

/-- Claim C6: the assembled page body is exactly the fixed-order
concatenation — page header, all table fragments in order, the standalone
images surviving the payload-dedup guard, the non-blank text blocks (split
on blank lines, stripped, escaped, newlines as `<br>`), closing tag. -/
theorem c6_emission_order (p : PageContent) : pageHtml p = pageHtmlSpec p := by
  simp only [pageHtml, pageHtmlSpec, emittedStandalone]
  rw [foldl_append_join, foldl_skip_join]
  cases p.text with
  | none => simp [String.append_assoc]
  | some txt =>
    cases he : txt == "" with
    | true => simp [he, String.append_assoc]
    | false =>
      have hne : ¬ ((txt == "") = true) := by simp [he]
      dsimp only
      rw [if_neg hne, if_neg hne, foldl_skip_join]

/-- Claim C7 counterexample: the source's `if rect:` is a truthiness test
and a PyMuPDF rect with all components zero is falsy, so a drawing whose
`fill_image` matches the image's xref but whose rect is `(0, 0, 0, 0)` does
not have its rectangle used as the bbox — the code falls back to the page
rectangle instead. -/
theorem c7_counterexample :
    (⟨some 7, ⟨0, 0, 0, 0⟩⟩ : Drawing) ∈ pmZ.drawings
    ∧ (⟨some 7, ⟨0, 0, 0, 0⟩⟩ : Drawing).fill_image = some 7
    ∧ resolve_bbox pmZ 7 ≠ (⟨some 7, ⟨0, 0, 0, 0⟩⟩ : Drawing).rect := by
  refine ⟨List.mem_singleton.mpr rfl, rfl, ?_⟩
  show (if rectBool ⟨0, 0, 0, 0⟩ then (⟨0, 0, 0, 0⟩ : BBox) else ⟨0, 0, 100, 200⟩)
      ≠ (⟨0, 0, 0, 0⟩ : BBox)
  rw [if_neg (by norm_num [rectBool])]
  intro h
  have := congrArg BBox.x1 h
  norm_num at this

/-- Claim C7 (amended): a decoded image with no drawing whose `fill_image`
matches its xref resolves to the full page rectangle
`(0, 0, width, height)`; when a matching drawing exists, the first match's
rect is the bbox unless that rect is the all-zero (Python-falsy) rectangle,
in which case the page-rectangle fallback is used as well; the resolved
record is in the page's extracted image list. -/
theorem c7_fallback_amended (pm : PageMeta) (raws : List RawImage) (r : RawImage)
    (h : r ∈ raws) :
    ({ data := r.data, format := r.format, bbox := resolve_bbox pm r.xref } : Img)
        ∈ extract_images_from_page pm raws
    ∧ ((∀ d ∈ pm.drawings, d.fill_image ≠ some r.xref) →
        resolve_bbox pm r.xref = ⟨0, 0, pm.width, pm.height⟩)
    ∧ (∀ ds₁ (d : Drawing) ds₂, pm.drawings = ds₁ ++ d :: ds₂ →
        d.fill_image = some r.xref →
        (∀ e ∈ ds₁, e.fill_image ≠ some r.xref) →
        resolve_bbox pm r.xref
          = if rectBool d.rect then d.rect else ⟨0, 0, pm.width, pm.height⟩) := by
  refine ⟨List.mem_map_of_mem _ h, fun hno => ?_, fun ds₁ d ds₂ hsplit hd hfirst => ?_⟩
  · unfold resolve_bbox
    rw [gir_no_match r.xref pm.drawings hno]
  · unfold resolve_bbox
    rw [hsplit, gir_first r.xref d hd ds₁ ds₂ hfirst]

/-- Claim C7 witness: concrete no-match fallback, concrete first-match
resolution with a truthy rect, and concrete fallback on a matching but
all-zero (falsy) rect. -/
theorem c7_witness :
    resolve_bbox pmW 9 = ⟨0, 0, 100, 200⟩ ∧ resolve_bbox pmW 7 = ⟨1, 2, 3, 4⟩
    ∧ resolve_bbox pmZ 7 = ⟨0, 0, 100, 200⟩ := by
  refine ⟨(c7_fallback_amended pmW [rawNoMatch] rawNoMatch
      (List.mem_singleton.mpr rfl)).2.1 (by decide), ?_, ?_⟩
  · have h := (c7_fallback_amended pmW [rawMatch] rawMatch
      (List.mem_singleton.mpr rfl)).2.2 [] ⟨some 7, ⟨1, 2, 3, 4⟩⟩ [] rfl rfl (by simp)
    rw [if_pos (by norm_num [rectBool])] at h
    exact h
  · have h := (c7_fallback_amended pmZ [rawMatch] rawMatch
      (List.mem_singleton.mpr rfl)).2.2 [] ⟨some 7, ⟨0, 0, 0, 0⟩⟩ [] rfl rfl (by simp)
    rw [if_neg (by norm_num [rectBool])] at h
    exact h

/-- Claim C8: the nearest-within-tolerance search returns `none` iff no
candidate satisfies `|dx| < 50 ∧ |dy| < 30`, and otherwise returns a
candidate that is near, strictly closer (in the squared — equivalently the
Euclidean — distance) than every near candidate before it, and at least as
close as every near candidate after it: the minimum with ties broken in
favour of the first-encountered candidate. -/
theorem c8_nearest (service_name : String) (page_images : List Img) (cell_bbox : BBox) :
    (get_image_for_service service_name page_images cell_bbox = none
      ↔ ∀ j ∈ page_images, ¬ nearQ (bboxCenter j.bbox) (bboxCenter cell_bbox))
    ∧ ∀ i : Img, get_image_for_service service_name page_images cell_bbox = some i →
        ∃ pre suf, page_images = pre ++ i :: suf
          ∧ nearQ (bboxCenter i.bbox) (bboxCenter cell_bbox)
          ∧ (∀ j ∈ pre, nearQ (bboxCenter j.bbox) (bboxCenter cell_bbox) →
              dist2 (bboxCenter i.bbox) (bboxCenter cell_bbox)
                < dist2 (bboxCenter j.bbox) (bboxCenter cell_bbox))
          ∧ (∀ j ∈ suf, nearQ (bboxCenter j.bbox) (bboxCenter cell_bbox) →
              dist2 (bboxCenter i.bbox) (bboxCenter cell_bbox)
                ≤ dist2 (bboxCenter j.bbox) (bboxCenter cell_bbox)) := by
  constructor
  · constructor
    · intro h
      have hg : gifsLoop (bboxCenter cell_bbox) page_images none = none := by
        cases hg : gifsLoop (bboxCenter cell_bbox) page_images none with
        | none => rfl
        | some p =>
          unfold get_image_for_service at h
          rw [hg] at h
          simp at h
      exact (gifsLoop_eq_none _ _ none hg).2
    · intro h
      unfold get_image_for_service
      rw [gifsLoop_no_near _ _ none h]
      rfl
  · intro i h
    unfold get_image_for_service at h
    obtain ⟨p, hp, hpi⟩ :
        ∃ p, gifsLoop (bboxCenter cell_bbox) page_images none = some p ∧ p.1 = i := by
      cases hg : gifsLoop (bboxCenter cell_bbox) page_images none with
      | none => rw [hg] at h; simp at h
      | some p =>
        rw [hg] at h
        simp at h
        exact ⟨p, rfl, h⟩
    obtain ⟨i', d⟩ := p
    simp only at hpi
    subst hpi
    rcases gifsLoop_spec _ _ none i' d hp with ⟨heq, -⟩ |
      ⟨pre, suf, hsplit, hd, hnear, -, hpre, hsuf⟩
    · exact Option.noConfusion heq
    · subst hd
      exact ⟨pre, suf, hsplit, hnear, hpre, hsuf⟩

theorem nearA_holds : nearQ (bboxCenter imgNearA.bbox) (bboxCenter bbCell) := by
  norm_num [nearQ, bboxCenter, hCenter, vCenter, imgNearA, bbCell, abs_lt]

theorem nearB_holds : nearQ (bboxCenter imgNearB.bbox) (bboxCenter bbCell) := by
  norm_num [nearQ, bboxCenter, hCenter, vCenter, imgNearB, bbCell, abs_lt]

theorem farNotNear : ¬ nearQ (bboxCenter imgFar.bbox) (bboxCenter bbCell) := by
  norm_num [nearQ, bboxCenter, hCenter, vCenter, imgFar, bbCell, abs_lt]

theorem dB_lt_dA :
    dist2 (bboxCenter imgNearB.bbox) (bboxCenter bbCell)
      < dist2 (bboxCenter imgNearA.bbox) (bboxCenter bbCell) := by
  norm_num [dist2, bboxCenter, hCenter, vCenter, imgNearA, imgNearB, bbCell]

theorem gifs_concrete :
    get_image_for_service ("x") [imgFar, imgNearA, imgNearB] bbCell = some imgNearB := by
  unfold get_image_for_service
  have h1 : gifsLoop (bboxCenter bbCell) [imgFar, imgNearA, imgNearB] none
      = some (imgNearB, dist2 (bboxCenter imgNearB.bbox) (bboxCenter bbCell)) := by
    simp only [gifsLoop, if_neg farNotNear, if_pos nearA_holds]
    rw [if_pos ⟨nearB_holds, dB_lt_dA⟩]
  rw [h1]
  rfl

/-- Claim C8 witness: on a concrete candidate list with one out-of-tolerance
candidate and two near candidates, the returned candidate is near, strictly
closer than every near candidate before it, and at least as close as every
near candidate after it. -/
theorem c8_witness :
    ∃ pre suf, ([imgFar, imgNearA, imgNearB] : List Img) = pre ++ imgNearB :: suf
      ∧ nearQ (bboxCenter imgNearB.bbox) (bboxCenter bbCell)
      ∧ (∀ j ∈ pre, nearQ (bboxCenter j.bbox) (bboxCenter bbCell) →
          dist2 (bboxCenter imgNearB.bbox) (bboxCenter bbCell)
            < dist2 (bboxCenter j.bbox) (bboxCenter bbCell))
      ∧ (∀ j ∈ suf, nearQ (bboxCenter j.bbox) (bboxCenter bbCell) →
          dist2 (bboxCenter imgNearB.bbox) (bboxCenter bbCell)
            ≤ dist2 (bboxCenter j.bbox) (bboxCenter bbCell)) :=
  (c8_nearest ("x") [imgFar, imgNearA, imgNearB] bbCell).2 imgNearB gifs_concrete

/-- Claim C9: the assembly pipeline is deterministic and leaves the extracted
input unchanged — the page-image pool comes back exactly as it went in, so
running the whole page pipeline a second time on its own output state yields
byte-identical markup. -/
theorem c9_deterministic (found : List Table) (pool : List Img)
    (txt : Option String) (n : Nat) :
    (pagePipeline found (pagePipeline found pool txt n).2 txt n).1
      = (pagePipeline found pool txt n).1
    ∧ (pagePipeline found pool txt n).2 = pool := by
  have h2 : (pagePipeline found pool txt n).2 = pool := by
    unfold pagePipeline
    exact st_snd found pool
  exact ⟨by rw [h2], h2⟩

/-- Claim C10: table reconstruction never mutates the page image pool — the
state it returns is the input pool, and every kept table's fragment is
computed from the same full original pool, so one image can be embedded by
several tables on a page. -/
theorem c10_pool_frame (ts : List Table) (pool : List Img) :
    (extract_tables_with_images_st ts pool).1
      = (ts.filter (fun t => !t.rows.isEmpty)).map (fun t => tableHtml t pool)
    ∧ (extract_tables_with_images_st ts pool).2 = pool :=
  ⟨st_fst ts pool, st_snd ts pool⟩

end PdfHtml
